import Mathlib

/-!
Verification of the WiredTiger public contract (`src/include/wiredtiger.h`).

The repository ships only the public header: every function of the API is
declared and documented there, but no implementation is present under `src/`.
Consequently the executable behaviour of the struct pack/unpack codec, the
cursor engine and the transaction coordinator is modelled from the
specification text (which coincides with the doc comments of the header);
each such definition is marked `Modelled from the spec:`.  The error-code
constants and the `WT_ITEM` structure are declared in the header itself and
are embedded directly from the source.
-/

namespace WiredTiger

/-! ### Byte order and byte-level encoding -/

/-- Byte orders selectable by a format-string prefix
(`wiredtiger_struct_pack` documentation, header lines 751-765). -/
inductive ByteOrder where
  | big
  | little
deriving DecidableEq, Repr

/-- Big-endian byte list (most significant byte first) of width `w` for the
natural number `n`; each byte is reduced modulo 256. -/
def beBytes : Nat → Nat → List Nat
  | 0, _ => []
  | w + 1, n => (n / 256 ^ w) % 256 :: beBytes w n

/-- Byte list of width `w` for `n` in byte order `bo`. -/
def orderBytes (bo : ByteOrder) (w n : Nat) : List Nat :=
  match bo with
  | .big => beBytes w n
  | .little => (beBytes w n).reverse

/-- Big-endian interpretation of a byte list as a natural number. -/
def natOfBE (bs : List Nat) : Nat :=
  bs.foldl (fun a b => a * 256 + b) 0

/-- Interpretation of a byte list as a natural number in byte order `bo`. -/
def natOfBytes (bo : ByteOrder) (bs : List Nat) : Nat :=
  match bo with
  | .big => natOfBE bs
  | .little => natOfBE bs.reverse

/-! ### Format strings

Modelled from the spec: the header declares `wiredtiger_struct_pack`,
`wiredtiger_struct_unpack` and `wiredtiger_struct_size` (lines 746-889) and
documents the format-string grammar, but ships no implementation; the codec
below follows the documented grammar.  Fixed-width scalar fields are
represented by their byte width (the standard-size table of the header);
values of such fields are modelled as their bit patterns. -/

/-- Parsed field of a format string: a fixed-width scalar of `w` bytes
(covering the codes `c b B ? h H i I l L q Q f d r`), a pad byte (`x`), a
fixed-length byte string of `n` bytes (`s` with repeat count `n`), a
NUL-terminated string (`S`), or a raw byte array (`u`). -/
inductive Field where
  | fint (w : Nat)
  | fpad
  | fstr (n : Nat)
  | fS
  | fu
deriving DecidableEq, Repr

/-- Standard byte width of a fixed scalar format code, per the header table
(lines 767-789). -/
def typeWidth (c : Char) : Option Nat :=
  if c = 'c' ∨ c = 'b' ∨ c = 'B' ∨ c = '?' then some 1
  else if c = 'h' ∨ c = 'H' then some 2
  else if c = 'i' ∨ c = 'I' ∨ c = 'l' ∨ c = 'L' ∨ c = 'f' then some 4
  else if c = 'q' ∨ c = 'Q' ∨ c = 'd' ∨ c = 'r' then some 8
  else none

/-- Fields produced by one format code with an optional repeat count: the
count is the byte length for `s` and a repetition count otherwise. -/
def fieldsOfChar (c : Char) (cnt : Option Nat) : Option (List Field) :=
  let n := cnt.getD 1
  if c = 'x' then some (List.replicate n Field.fpad)
  else if c = 's' then some [Field.fstr n]
  else if c = 'S' then some (List.replicate n Field.fS)
  else if c = 'u' then some (List.replicate n Field.fu)
  else (typeWidth c).map (fun w => List.replicate n (Field.fint w))

/-- Parse the field part of a format string (after the byte-order prefix);
`cnt` is the pending decimal repeat count. -/
def parseFieldsAux : List Char → Option Nat → Option (List Field)
  | [], none => some []
  | [], some _ => none
  | c :: rest, cnt =>
    if c.isDigit then
      parseFieldsAux rest (some ((cnt.getD 0) * 10 + (c.toNat - 48)))
    else
      match fieldsOfChar c cnt with
      | none => none
      | some fs => (parseFieldsAux rest none).map (fs ++ ·)

/-- Strip the optional byte-order prefix of a format string, returning the
selected byte order and the remaining field characters.  Per the header
(lines 751-765): `@` and `=` select the native order, `<` little-endian,
`>` and `!` big-endian, and any other first character means big-endian with
the character treated as a field code. -/
def splitOrder (native : ByteOrder) (cs : List Char) : ByteOrder × List Char :=
  match cs with
  | [] => (ByteOrder.big, [])
  | c :: rest =>
    if c = '@' ∨ c = '=' then (native, rest)
    else if c = '<' then (ByteOrder.little, rest)
    else if c = '>' ∨ c = '!' then (ByteOrder.big, rest)
    else (ByteOrder.big, cs)

/-- Parsed field sequence of a format string (independent of the native
byte order, which only affects the selected byte order). -/
def formatFields (cs : List Char) : Option (List Field) :=
  parseFieldsAux (splitOrder ByteOrder.big cs).2 none

/-- Byte order selected by a format string, given the native order. -/
def formatOrder (native : ByteOrder) (cs : List Char) : ByteOrder :=
  (splitOrder native cs).1

/-! ### Values and packing -/

/-- Typed value to be packed: scalar bit pattern (`vint`), string bytes
(`vstr`, for `s` and `S` fields), or raw bytes (`vraw`, for `u` fields). -/
inductive PackVal where
  | vint (n : Nat)
  | vstr (bs : List Nat)
  | vraw (bs : List Nat)
deriving DecidableEq, Repr

/-- Modelled from the spec: the packing core of `wiredtiger_struct_pack`
(header lines 746-820, no implementation shipped).  Scalars are written at
their standard width in byte order `bo`; `s` writes exactly its declared
width; `S` writes the bytes followed by a NUL; `u` as the last field writes
the raw bytes only, and otherwise a 4-byte length in order `bo` followed by
the raw bytes.  Mismatched value count or type, or an `s`/`S` value that
does not fit its declared width, is a format error (`none`). -/
def packFields (bo : ByteOrder) : List Field → List PackVal → Option (List Nat)
  | [], [] => some []
  | Field.fpad :: fs, vs => (packFields bo fs vs).map (0 :: ·)
  | Field.fint w :: fs, PackVal.vint n :: vs =>
      (packFields bo fs vs).map (orderBytes bo w n ++ ·)
  | Field.fstr k :: fs, PackVal.vstr bs :: vs =>
      if bs.length = k ∧ ∀ b ∈ bs, b < 256 then
        (packFields bo fs vs).map (bs ++ ·)
      else none
  | Field.fS :: fs, PackVal.vstr bs :: vs =>
      if ∀ b ∈ bs, b < 256 ∧ b ≠ 0 then
        (packFields bo fs vs).map (fun r => bs ++ 0 :: r)
      else none
  | Field.fu :: fs, PackVal.vraw bs :: vs =>
      if ∀ b ∈ bs, b < 256 then
        if fs.isEmpty then
          (packFields bo fs vs).map (fun r => bs ++ r)
        else
          (packFields bo fs vs).map (fun r => orderBytes bo 4 bs.length ++ bs ++ r)
      else none
  | _, _ => none

/-- Modelled from the spec: the unpacking core of
`wiredtiger_struct_unpack` (header lines 862-876, no implementation
shipped).  Returns the decoded values together with the bytes left over;
fails when the buffer is too short, a NUL terminator is missing, or a
length-prefixed `u` is truncated.  A `u` field that is last in the format
claims all remaining bytes. -/
def unpackFields (bo : ByteOrder) : List Field → List Nat → Option (List PackVal × List Nat)
  | [], bs => some ([], bs)
  | Field.fpad :: fs, bs =>
      match bs with
      | [] => none
      | _ :: rest => unpackFields bo fs rest
  | Field.fint w :: fs, bs =>
      if w ≤ bs.length then
        (unpackFields bo fs (bs.drop w)).map
          (fun p => (PackVal.vint (natOfBytes bo (bs.take w)) :: p.1, p.2))
      else none
  | Field.fstr k :: fs, bs =>
      if k ≤ bs.length then
        (unpackFields bo fs (bs.drop k)).map
          (fun p => (PackVal.vstr (bs.take k) :: p.1, p.2))
      else none
  | Field.fS :: fs, bs =>
      if 0 ∈ bs then
        (unpackFields bo fs ((bs.dropWhile (· != 0)).tail)).map
          (fun p => (PackVal.vstr (bs.takeWhile (· != 0)) :: p.1, p.2))
      else none
  | Field.fu :: fs, bs =>
      if fs.isEmpty then some ([PackVal.vraw bs], [])
      else if 4 ≤ bs.length then
        let n := natOfBytes bo (bs.take 4)
        if n ≤ (bs.drop 4).length then
          (unpackFields bo fs ((bs.drop 4).drop n)).map
            (fun p => (PackVal.vraw ((bs.drop 4).take n) :: p.1, p.2))
        else none
      else none

/-- Shallow embedding of `wiredtiger_struct_pack` on a format string. -/
def struct_pack (native : ByteOrder) (fmt : List Char) (vs : List PackVal) :
    Option (List Nat) :=
  (formatFields fmt).bind (fun fs => packFields (formatOrder native fmt) fs vs)

/-- Shallow embedding of `wiredtiger_struct_unpack` on a format string. -/
def struct_unpack (native : ByteOrder) (fmt : List Char) (buf : List Nat) :
    Option (List PackVal) :=
  (formatFields fmt).bind
    (fun fs => (unpackFields (formatOrder native fmt) fs buf).map Prod.fst)

/-- Value tuple matching a parsed field sequence: right arity, right type
per field, scalar bit patterns within the field width, byte values below
256, no NUL inside an `S` string, and a `u` length representable in the
32-bit length prefix. -/
def valsMatch : List Field → List PackVal → Prop
  | [], [] => True
  | Field.fpad :: fs, vs => valsMatch fs vs
  | Field.fint w :: fs, PackVal.vint n :: vs => n < 256 ^ w ∧ valsMatch fs vs
  | Field.fstr k :: fs, PackVal.vstr bs :: vs =>
      bs.length = k ∧ (∀ b ∈ bs, b < 256) ∧ valsMatch fs vs
  | Field.fS :: fs, PackVal.vstr bs :: vs =>
      (∀ b ∈ bs, b < 256 ∧ b ≠ 0) ∧ valsMatch fs vs
  | Field.fu :: fs, PackVal.vraw bs :: vs =>
      (∀ b ∈ bs, b < 256) ∧ bs.length < 256 ^ 4 ∧ valsMatch fs vs
  | _, _ => False

/-! ### Layout of raw-byte fields -/

/-- Packing of a field sequence known not to end the format: identical to
`packFields` except that a `u` field is always written with its 4-byte
length prefix (the branch `packFields` takes whenever more fields
follow). -/
def packMid (bo : ByteOrder) : List Field → List PackVal → Option (List Nat)
  | [], [] => some []
  | Field.fpad :: fs, vs => (packMid bo fs vs).map (0 :: ·)
  | Field.fint w :: fs, PackVal.vint n :: vs =>
      (packMid bo fs vs).map (orderBytes bo w n ++ ·)
  | Field.fstr k :: fs, PackVal.vstr bs :: vs =>
      if bs.length = k ∧ ∀ b ∈ bs, b < 256 then
        (packMid bo fs vs).map (bs ++ ·)
      else none
  | Field.fS :: fs, PackVal.vstr bs :: vs =>
      if ∀ b ∈ bs, b < 256 ∧ b ≠ 0 then
        (packMid bo fs vs).map (fun r => bs ++ 0 :: r)
      else none
  | Field.fu :: fs, PackVal.vraw bs :: vs =>
      if ∀ b ∈ bs, b < 256 then
        (packMid bo fs vs).map (fun r => orderBytes bo 4 bs.length ++ bs ++ r)
      else none
  | _, _ => none

/-! ### Declared size of a format -/

/-- Declared encoded width of one parsed field: the standard width for
scalars, one byte for a pad, the declared count for `s`, and zero for an
unsized variable field (`S`, `u`) — per the spec, the size helper reflects
only sizes explicit in the format string, never runtime data length, and
the declared size of a bare `u` is zero. -/
def fieldSize : Field → Nat
  | Field.fint w => w
  | Field.fpad => 1
  | Field.fstr n => n
  | Field.fS => 0
  | Field.fu => 0

/-- Sum of the declared widths of a parsed field sequence. -/
def sizeOfFields (fs : List Field) : Nat :=
  (fs.map fieldSize).sum

/-- Modelled from the spec: `wiredtiger_struct_size` (header lines 835-849,
no implementation shipped) — the size computed from the format's repeat
counts alone. -/
def struct_size (fmt : List Char) : Option Nat :=
  (formatFields fmt).map sizeOfFields

/-- Side condition of C6, stated positionally on the aligned field/value
lists: every `u`/`S` field's declared size must equal the size of the data
actually encoded for it.  Under the zero declared size of unsized variable
fields this rules out every `S` field (which always encodes at least its
NUL terminator), every mid-format `u` (which encodes a 4-byte prefix), and
a final `u` unless its data is empty.  Fixed-width fields always
satisfy it. -/
def declSizeOk : List Field → List PackVal → Prop
  | Field.fpad :: fs, vs => declSizeOk fs vs
  | Field.fint _ :: fs, PackVal.vint _ :: vs => declSizeOk fs vs
  | Field.fstr _ :: fs, PackVal.vstr _ :: vs => declSizeOk fs vs
  | Field.fS :: _, PackVal.vstr _ :: _ => False
  | Field.fu :: fs, PackVal.vraw bs :: vs =>
      (fs = [] ∧ bs = []) ∧ declSizeOk fs vs
  | _, _ => True

/-! ### Error codes and data items (embedded from the header) -/

/-- Embedding of the `WT_DEADLOCK` constant (header line 905). -/
def WT_DEADLOCK : Int := -10000

/-- Embedding of the `WT_NOTFOUND` constant (header line 910). -/
def WT_NOTFOUND : Int := -10001

/-- Embedding of the `WT_UPDATE_CONFLICT` constant (header line 913). -/
def WT_UPDATE_CONFLICT : Int := -10002

/-- Embedding of `WT_ITEM` (header lines 46-60): the data pointer is
modelled as the byte list itself, and the `uint32_t size` field as a
natural number carrying the 32-bit range invariant of the C type. -/
structure WT_ITEM where
  data : List Nat
  size : Nat
  size_lt : size < 2 ^ 32

/-- Construction of a `WT_ITEM` from raw bytes: representable exactly when
the byte count fits the unsigned 32-bit `size` field. -/
def itemOfBytes (bs : List Nat) : Option WT_ITEM :=
  if h : bs.length < 2 ^ 32 then some ⟨bs, bs.length, h⟩ else none

/-! ### Cursors, sessions and transactions

Modelled from the spec: the header declares the `WT_CURSOR` and
`WT_SESSION` operation tables (lines 80-552) with their documented
semantics, but no implementation is shipped; the state machine below
follows the spec's data model (cursor position, staged key/value with
deferred errors, per-session transaction state). -/

/-- Error taxonomy of the spec (section 7). -/
inductive WTErr where
  | NotFound
  | Conflict
  | Deadlock
  | ConfigError
  | FormatError
  | AlreadyExists
  | SchemaMismatch
  | InvalidState
deriving DecidableEq, Repr

/-- Isolation levels of the transaction coordinator. -/
inductive Isolation where
  | serializable
  | snapshot
  | readCommitted
  | readUncommitted
deriving DecidableEq, Repr

/-- Parameters of an active transaction. -/
structure TxnInfo where
  isolation : Isolation
  priority : Int
deriving DecidableEq, Repr

/-- Per-session transaction state: `Inactive` or `Active`. -/
inductive TxnState where
  | inactive
  | active (t : TxnInfo)
deriving DecidableEq, Repr

/-- Staging slot of a cursor: empty, holding successfully encoded bytes,
or holding a deferred error recorded by `set_key`/`set_value`. -/
inductive Staged where
  | empty
  | ok (bytes : List Nat)
  | err (e : WTErr)
deriving DecidableEq, Repr

/-- Modelled from the spec: the cursor state of `WT_CURSOR` — key and
value formats, closed flag, position (the packed key currently positioned
on, if any), the two staging slots with their pending-error states, the
flag recording whether the cursor was opened inside an active transaction,
and the isolation level it reads under. -/
structure Cursor where
  keyFormat : List Char
  valueFormat : List Char
  closed : Bool
  position : Option (List Nat)
  stagedKey : Staged
  stagedValue : Staged
  openedInTxn : Bool
  isolation : Isolation
deriving DecidableEq, Repr

/-- Modelled from the spec: `WT_CURSOR.set_key` (header lines 122-134).
The call returns only the updated cursor — it has no failure outcome; a
value tuple the codec rejects records a deferred `FormatError` in the
staging slot instead. -/
def set_key (native : ByteOrder) (c : Cursor) (vs : List PackVal) : Cursor :=
  match struct_pack native c.keyFormat vs with
  | some buf => { c with stagedKey := Staged.ok buf }
  | none => { c with stagedKey := Staged.err WTErr.FormatError }

/-- Modelled from the spec: `WT_CURSOR.set_value` (header lines 136-148),
symmetric to `set_key` on the value staging slot. -/
def set_value (native : ByteOrder) (c : Cursor) (vs : List PackVal) : Cursor :=
  match struct_pack native c.valueFormat vs with
  | some buf => { c with stagedValue := Staged.ok buf }
  | none => { c with stagedValue := Staged.err WTErr.FormatError }

/-- Modelled from the spec: `WT_CURSOR.get_key` (header lines 102-110) —
fails `InvalidState` on a closed or unpositioned cursor, and surfaces a
deferred key error, clearing it and leaving the cursor unpositioned. -/
def get_key (c : Cursor) : Cursor × Option WTErr :=
  if c.closed then (c, some WTErr.InvalidState)
  else
    match c.stagedKey with
    | Staged.err e =>
        ({ c with stagedKey := Staged.empty, position := none }, some e)
    | _ =>
        if c.position.isSome then (c, none) else (c, some WTErr.InvalidState)

/-- Modelled from the spec: `WT_CURSOR.get_value` (header lines 112-120),
symmetric to `get_key` on the value staging slot. -/
def get_value (c : Cursor) : Cursor × Option WTErr :=
  if c.closed then (c, some WTErr.InvalidState)
  else
    match c.stagedValue with
    | Staged.err e =>
        ({ c with stagedValue := Staged.empty, position := none }, some e)
    | _ =>
        if c.position.isSome then (c, none) else (c, some WTErr.InvalidState)

/-- Modelled from the spec: `WT_CURSOR.search` (header lines 195-205) —
consumes the staged key, surfacing a deferred error, and positions the
cursor on an exact match or fails `NotFound` unpositioned. -/
def search (keys : List (List Nat)) (c : Cursor) : Cursor × Option WTErr :=
  if c.closed then (c, some WTErr.InvalidState)
  else
    match c.stagedKey with
    | Staged.empty => (c, some WTErr.InvalidState)
    | Staged.err e =>
        ({ c with stagedKey := Staged.empty, position := none }, some e)
    | Staged.ok k =>
        if k ∈ keys then
          ({ c with stagedKey := Staged.empty, position := some k }, none)
        else
          ({ c with stagedKey := Staged.empty, position := none },
            some WTErr.NotFound)

/-- Core of `search_near` over a collated table, modelled from the spec:
the table is the list of keys in strictly ascending collation order; the
result pairs the tri-state with the key positioned on — an exact match,
else the greatest key strictly below the search key, else the least key
strictly above it, else no record. -/
def searchNearKey {K : Type} [LinearOrder K] (keys : List K) (k : K) :
    Option (Int × K) :=
  if k ∈ keys then some (0, k)
  else
    match (keys.filter (fun y => decide (y < k))).getLast? with
    | some m => some (-1, m)
    | none =>
      match (keys.filter (fun y => decide (k < y))).head? with
      | some m => some (1, m)
      | none => none

/-- Modelled from the spec: `WT_CURSOR.search_near` (header lines
207-219) at the cursor level, with packed keys collated
lexicographically. -/
def search_near (keys : List (List Nat)) (c : Cursor) :
    Cursor × Except WTErr Int :=
  if c.closed then (c, Except.error WTErr.InvalidState)
  else
    match c.stagedKey with
    | Staged.empty => (c, Except.error WTErr.InvalidState)
    | Staged.err e =>
        ({ c with stagedKey := Staged.empty, position := none },
          Except.error e)
    | Staged.ok k =>
      match searchNearKey keys k with
      | some p =>
          ({ c with stagedKey := Staged.empty, position := some p.2 },
            Except.ok p.1)
      | none =>
          ({ c with stagedKey := Staged.empty, position := none },
            Except.error WTErr.NotFound)

/-- Modelled from the spec: `WT_CURSOR.close` (header lines 267-276) —
succeeds on an open cursor and fails `InvalidState` if already closed. -/
def cursor_close (c : Cursor) : Cursor × Option WTErr :=
  if c.closed then (c, some WTErr.InvalidState)
  else ({ c with closed := true }, none)

/-- Modelled from the spec: a session owns its transaction state and the
cursors opened on it. -/
structure Session where
  txn : TxnState
  cursors : List Cursor
deriving DecidableEq, Repr

/-- Configuration strings are modelled as parsed key/value pair lists. -/
def lookupCfg (cfg : List (String × String)) (k : String) : Option String :=
  (cfg.find? (fun p => p.1 == k)).map Prod.snd

/-- Modelled from the spec: the `isolation` option of
`WT_SESSION.open_cursor` (header lines 339-341) — absent means
`"read-committed"`. -/
def cursorIsolation (cfg : List (String × String)) : Isolation :=
  match lookupCfg cfg "isolation" with
  | none => Isolation.readCommitted
  | some v =>
    if v = "snapshot" then Isolation.snapshot
    else if v = "read-uncommitted" then Isolation.readUncommitted
    else Isolation.readCommitted

/-- Modelled from the spec: `WT_SESSION.open_cursor` (header lines
306-352).  A cursor opened while a transaction is active is transactional:
it is bound to the transaction (recorded in `openedInTxn`) and the
cursor-level `isolation` option is ignored in favour of the transaction's
isolation; otherwise the option (with its `"read-committed"` default)
applies. -/
def open_cursor (s : Session) (kf vf : List Char)
    (cfg : List (String × String)) : Session × Cursor :=
  let c : Cursor :=
    { keyFormat := kf
      valueFormat := vf
      closed := false
      position := none
      stagedKey := Staged.empty
      stagedValue := Staged.empty
      openedInTxn := match s.txn with
        | TxnState.active _ => true
        | TxnState.inactive => false
      isolation := match s.txn with
        | TxnState.active t => t.isolation
        | TxnState.inactive => cursorIsolation cfg }
  ({ s with cursors := s.cursors ++ [c] }, c)

/-- Modelled from the spec: `WT_SESSION.begin_transaction` (header lines
468-495) — ignored if a transaction is in progress, otherwise transitions
to `Active` with the requested isolation and priority. -/
def begin_transaction (s : Session) (iso : Isolation) (prio : Int) :
    Session :=
  match s.txn with
  | TxnState.active _ => s
  | TxnState.inactive => { s with txn := TxnState.active ⟨iso, prio⟩ }

/-- Closing of a transaction-bound cursor at commit/rollback time. -/
def closeTxnCursor (c : Cursor) : Cursor :=
  if c.openedInTxn then { c with closed := true } else c

/-- Modelled from the spec: `WT_SESSION.commit_transaction` (header lines
497-511) — ignored if no transaction is in progress; otherwise closes
every cursor opened during the transaction and transitions to
`Inactive`. -/
def commit_transaction (s : Session) : Session × Option WTErr :=
  match s.txn with
  | TxnState.inactive => (s, none)
  | TxnState.active _ =>
      ({ txn := TxnState.inactive,
         cursors := s.cursors.map closeTxnCursor }, none)

/-- Modelled from the spec: `WT_SESSION.rollback_transaction` (header
lines 513-527) — ignored if no transaction is in progress; otherwise
closes every cursor opened during the transaction and transitions to
`Inactive`. -/
def rollback_transaction (s : Session) : Session × Option WTErr :=
  match s.txn with
  | TxnState.inactive => (s, none)
  | TxnState.active _ =>
      ({ txn := TxnState.inactive,
         cursors := s.cursors.map closeTxnCursor }, none)

theorem beBytes_length (w n : Nat) : (beBytes w n).length = w := by
  induction w generalizing n with
  | zero => rfl
  | succ k ih => simp [beBytes, ih]

theorem orderBytes_length (bo : ByteOrder) (w n : Nat) :
    (orderBytes bo w n).length = w := by
  cases bo <;> simp [orderBytes, beBytes_length]

theorem natOfBE_append (a b : List Nat) :
    natOfBE (a ++ b) = natOfBE a * 256 ^ b.length + natOfBE b := by
  induction b using List.reverseRecOn with
  | nil => simp [natOfBE]
  | append_singleton bs x ih =>
    have h1 : natOfBE (a ++ (bs ++ [x])) = natOfBE ((a ++ bs) ++ [x]) := by
      rw [List.append_assoc]
    have hfold : ∀ l x0, natOfBE (l ++ [x0]) = natOfBE l * 256 + x0 := by
      intro l x0
      simp [natOfBE, List.foldl_append]
    rw [h1, hfold, ih, hfold]
    simp [List.length_append, pow_succ]
    ring

theorem natOfBE_beBytes (w n : Nat) : natOfBE (beBytes w n) = n % 256 ^ w := by
  induction w generalizing n with
  | zero => simp [beBytes, natOfBE, Nat.mod_one]
  | succ k ih =>
    have h : beBytes (k + 1) n = [(n / 256 ^ k) % 256] ++ beBytes k n := rfl
    rw [h, natOfBE_append, beBytes_length, ih]
    have h1 : natOfBE [(n / 256 ^ k) % 256] = (n / 256 ^ k) % 256 := by
      simp [natOfBE]
    rw [h1]
    have h256 : (256 : Nat) ^ (k + 1) = 256 ^ k * 256 := pow_succ 256 k
    rw [h256, Nat.mod_mul]
    ring

theorem natOfBytes_orderBytes (bo : ByteOrder) (w n : Nat) :
    natOfBytes bo (orderBytes bo w n) = n % 256 ^ w := by
  cases bo with
  | big => simpa [natOfBytes, orderBytes] using natOfBE_beBytes w n
  | little =>
    simp [natOfBytes, orderBytes, List.reverse_reverse]
    exact natOfBE_beBytes w n

theorem natOfBytes_orderBytes_of_lt (bo : ByteOrder) (w n : Nat)
    (h : n < 256 ^ w) : natOfBytes bo (orderBytes bo w n) = n := by
  rw [natOfBytes_orderBytes, Nat.mod_eq_of_lt h]

/-! ### Round-trip of the codec -/

theorem take_append_exact {α : Type} (a b : List α) (w : Nat)
    (h : a.length = w) : (a ++ b).take w = a := by
  subst h; exact List.take_left a b

theorem drop_append_exact {α : Type} (a b : List α) (w : Nat)
    (h : a.length = w) : (a ++ b).drop w = b := by
  subst h; exact List.drop_left a b

theorem takeWhile_append_zero (bs r : List Nat) (h : ∀ b ∈ bs, b ≠ 0) :
    (bs ++ 0 :: r).takeWhile (· != 0) = bs := by
  induction bs with
  | nil => simp [List.takeWhile]
  | cons a t ih =>
    have ha : a ≠ 0 := h a (by simp)
    simp only [List.cons_append, List.takeWhile_cons]
    have : (a != 0) = true := by simpa using ha
    rw [this]
    simp only [if_true, ih (fun b hb => h b (by simp [hb]))]

theorem dropWhile_append_zero (bs r : List Nat) (h : ∀ b ∈ bs, b ≠ 0) :
    (bs ++ 0 :: r).dropWhile (· != 0) = 0 :: r := by
  induction bs with
  | nil => simp [List.dropWhile]
  | cons a t ih =>
    have ha : a ≠ 0 := h a (by simp)
    simp only [List.cons_append, List.dropWhile_cons]
    have : (a != 0) = true := by simpa using ha
    rw [this]
    simp only [if_true, ih (fun b hb => h b (by simp [hb]))]

theorem valsMatch_nil_right (vs : List PackVal) (h : valsMatch [] vs) :
    vs = [] := by
  cases vs with
  | nil => rfl
  | cons v vs => simp [valsMatch] at h

/-- Packing a matching value tuple succeeds, and unpacking the produced
buffer returns exactly the original values, consuming the whole buffer. -/
theorem packFields_unpackFields (bo : ByteOrder) :
    ∀ fs vs, valsMatch fs vs →
      ∃ out, packFields bo fs vs = some out ∧
        unpackFields bo fs out = some (vs, []) := by
  intro fs
  induction fs with
  | nil =>
    intro vs h
    rw [valsMatch_nil_right vs h]
    exact ⟨[], rfl, rfl⟩
  | cons f fs ih =>
    intro vs h
    cases f with
    | fpad =>
      have hm : valsMatch fs vs := h
      obtain ⟨out, hp, hu⟩ := ih vs hm
      refine ⟨0 :: out, ?_, ?_⟩
      · simp [packFields, hp]
      · simp [unpackFields, hu]
    | fint w =>
      cases vs with
      | nil => simp [valsMatch] at h
      | cons v vs =>
        cases v with
        | vint n =>
          obtain ⟨hn, hm⟩ := h
          obtain ⟨out, hp, hu⟩ := ih vs hm
          refine ⟨orderBytes bo w n ++ out, ?_, ?_⟩
          · simp [packFields, hp]
          · have hlen : w ≤ (orderBytes bo w n ++ out).length := by
              simp [orderBytes_length]
            rw [unpackFields, if_pos hlen,
              take_append_exact _ _ _ (orderBytes_length bo w n),
              drop_append_exact _ _ _ (orderBytes_length bo w n), hu,
              natOfBytes_orderBytes_of_lt bo w n hn]
            rfl
        | vstr bs => simp [valsMatch] at h
        | vraw bs => simp [valsMatch] at h
    | fstr k =>
      cases vs with
      | nil => simp [valsMatch] at h
      | cons v vs =>
        cases v with
        | vstr bs =>
          obtain ⟨hk, hb, hm⟩ := h
          obtain ⟨out, hp, hu⟩ := ih vs hm
          refine ⟨bs ++ out, ?_, ?_⟩
          · rw [packFields, if_pos ⟨hk, hb⟩, hp]
            rfl
          · have hlen : k ≤ (bs ++ out).length := by
              simp [hk]
            rw [unpackFields, if_pos hlen, take_append_exact _ _ _ hk,
              drop_append_exact _ _ _ hk, hu]
            rfl
        | vint n => simp [valsMatch] at h
        | vraw bs => simp [valsMatch] at h
    | fS =>
      cases vs with
      | nil => simp [valsMatch] at h
      | cons v vs =>
        cases v with
        | vstr bs =>
          obtain ⟨hb, hm⟩ := h
          obtain ⟨out, hp, hu⟩ := ih vs hm
          refine ⟨bs ++ 0 :: out, ?_, ?_⟩
          · rw [packFields, if_pos hb, hp]
            rfl
          · have hz : (0 : Nat) ∈ bs ++ 0 :: out := by simp
            have hne : ∀ b ∈ bs, b ≠ 0 := fun b hbm => (hb b hbm).2
            rw [unpackFields, if_pos hz, takeWhile_append_zero bs out hne,
              dropWhile_append_zero bs out hne]
            simp [hu]
        | vint n => simp [valsMatch] at h
        | vraw bs => simp [valsMatch] at h
    | fu =>
      cases vs with
      | nil => simp [valsMatch] at h
      | cons v vs =>
        cases v with
        | vraw bs =>
          obtain ⟨hb, hlen, hm⟩ := h
          obtain ⟨out, hp, hu⟩ := ih vs hm
          cases fs with
          | nil =>
            have hvs : vs = [] := valsMatch_nil_right vs hm
            subst hvs
            refine ⟨bs, ?_, ?_⟩
            · rw [packFields, if_pos hb]
              simp [packFields]
            · rw [unpackFields]
              rfl
          | cons f0 fs0 =>
            refine ⟨orderBytes bo 4 bs.length ++ (bs ++ out), ?_, ?_⟩
            · rw [packFields, if_pos hb]
              have : (f0 :: fs0).isEmpty = false := rfl
              rw [this]
              simp only [Bool.false_eq_true, if_false, hp, Option.map_some]
              simp [List.append_assoc]
            · have hemp : (f0 :: fs0).isEmpty = false := rfl
              have h4 : 4 ≤ (orderBytes bo 4 bs.length ++ (bs ++ out)).length := by
                simp [orderBytes_length]
              rw [unpackFields, hemp]
              simp only [Bool.false_eq_true, if_false]
              rw [if_pos h4,
                take_append_exact _ _ _ (orderBytes_length bo 4 bs.length),
                drop_append_exact _ _ _ (orderBytes_length bo 4 bs.length),
                natOfBytes_orderBytes_of_lt bo 4 bs.length hlen]
              have hble : bs.length ≤ (bs ++ out).length := by simp
              rw [if_pos hble, take_append_exact bs out _ rfl,
                drop_append_exact bs out _ rfl, hu]
              rfl
        | vint n => simp [valsMatch] at h
        | vstr bs2 => simp [valsMatch] at h

/-- C1: for every format string `f` (under any native byte order) and every
value tuple `v` whose arity and types match the parsed field sequence of
`f`, packing `v` with `f` succeeds and unpacking the produced buffer with
the same `f` returns `v` bit-for-bit (scalar bit patterns, `s` bytes, `S`
string content and `u` byte content are all reproduced exactly). -/
theorem struct_unpack_struct_pack (native : ByteOrder) (fmt : List Char)
    (fs : List Field) (vs : List PackVal)
    (hf : formatFields fmt = some fs) (hm : valsMatch fs vs) :
    ∃ buf, struct_pack native fmt vs = some buf ∧
      struct_unpack native fmt buf = some vs := by
  obtain ⟨out, hp, hu⟩ :=
    packFields_unpackFields (formatOrder native fmt) fs vs hm
  exact ⟨out, by simp [struct_pack, hf, hp], by simp [struct_unpack, hf, hu]⟩

/-- Witness for C1 at the header's own example: format `"iSh"` with the
tuple `(42, "ok", 7)`. -/
theorem struct_unpack_struct_pack_witness :
    ∃ buf, struct_pack ByteOrder.little ("iSh".toList)
        [PackVal.vint 42, PackVal.vstr [111, 107], PackVal.vint 7] =
          some buf ∧
      struct_unpack ByteOrder.little ("iSh".toList) buf =
        some [PackVal.vint 42, PackVal.vstr [111, 107], PackVal.vint 7] :=
  struct_unpack_struct_pack ByteOrder.little ("iSh".toList)
    [Field.fint 4, Field.fS, Field.fint 2]
    [PackVal.vint 42, PackVal.vstr [111, 107], PackVal.vint 7]
    (by rfl) (by norm_num [valsMatch])

theorem packMid_append_packFields (bo : ByteOrder) :
    ∀ fs1 vs1 b1, packMid bo fs1 vs1 = some b1 →
      ∀ fs2 vs2, fs2 ≠ [] →
        packFields bo (fs1 ++ fs2) (vs1 ++ vs2) =
          (packFields bo fs2 vs2).map (b1 ++ ·) := by
  intro fs1
  induction fs1 with
  | nil =>
    intro vs1 b1 h1 fs2 vs2 _
    cases vs1 with
    | nil =>
      simp only [packMid] at h1
      obtain rfl : ([] : List Nat) = b1 := by injection h1
      simp
    | cons v vs => simp [packMid] at h1
  | cons f fs ih =>
    intro vs1 b1 h1 fs2 vs2 hne
    cases f with
    | fpad =>
      rw [packMid] at h1
      obtain ⟨r, hr, rfl⟩ := Option.map_eq_some'.mp h1
      rw [List.cons_append, packFields, ih vs1 r hr fs2 vs2 hne]
      cases packFields bo fs2 vs2 <;> rfl
    | fint w =>
      cases vs1 with
      | nil => simp [packMid] at h1
      | cons v vs =>
        cases v with
        | vint n =>
          rw [packMid] at h1
          obtain ⟨r, hr, rfl⟩ := Option.map_eq_some'.mp h1
          rw [List.cons_append, List.cons_append, packFields,
            ih vs r hr fs2 vs2 hne]
          cases packFields bo fs2 vs2 <;> simp
        | vstr bs => simp [packMid] at h1
        | vraw bs => simp [packMid] at h1
    | fstr k =>
      cases vs1 with
      | nil => simp [packMid] at h1
      | cons v vs =>
        cases v with
        | vstr bs =>
          rw [packMid] at h1
          by_cases hc : bs.length = k ∧ ∀ b ∈ bs, b < 256
          · rw [if_pos hc] at h1
            obtain ⟨r, hr, rfl⟩ := Option.map_eq_some'.mp h1
            rw [List.cons_append, List.cons_append, packFields, if_pos hc,
              ih vs r hr fs2 vs2 hne]
            cases packFields bo fs2 vs2 <;> simp
          · rw [if_neg hc] at h1
            exact absurd h1 (by simp)
        | vint n => simp [packMid] at h1
        | vraw bs => simp [packMid] at h1
    | fS =>
      cases vs1 with
      | nil => simp [packMid] at h1
      | cons v vs =>
        cases v with
        | vstr bs =>
          rw [packMid] at h1
          by_cases hc : ∀ b ∈ bs, b < 256 ∧ b ≠ 0
          · rw [if_pos hc] at h1
            obtain ⟨r, hr, rfl⟩ := Option.map_eq_some'.mp h1
            rw [List.cons_append, List.cons_append, packFields, if_pos hc,
              ih vs r hr fs2 vs2 hne]
            cases packFields bo fs2 vs2 <;> simp
          · rw [if_neg hc] at h1
            exact absurd h1 (by simp)
        | vint n => simp [packMid] at h1
        | vraw bs => simp [packMid] at h1
    | fu =>
      cases vs1 with
      | nil => simp [packMid] at h1
      | cons v vs =>
        cases v with
        | vraw bs =>
          rw [packMid] at h1
          by_cases hc : ∀ b ∈ bs, b < 256
          · rw [if_pos hc] at h1
            obtain ⟨r, hr, rfl⟩ := Option.map_eq_some'.mp h1
            have hemp : (fs ++ fs2).isEmpty = false := by
              cases fs2 with
              | nil => exact absurd rfl hne
              | cons a l => cases fs <;> simp
            rw [List.cons_append, List.cons_append, packFields, if_pos hc,
              hemp]
            simp only [Bool.false_eq_true, if_false]
            rw [ih vs r hr fs2 vs2 hne]
            cases packFields bo fs2 vs2 <;> simp
          · rw [if_neg hc] at h1
            exact absurd h1 (by simp)
        | vint n => simp [packMid] at h1
        | vstr bs => simp [packMid] at h1

/-- C2: layout of `u` fields.  First conjunct: a `u` field that is the last
field of the format is packed as its raw bytes only, with no stored
length.  Second conjunct: a `u` field with at least one field after it is
packed as a 4-byte length prefix in the format's byte order followed by the
raw bytes (the prefix is 4 bytes long and decodes, in that byte order, to
the byte count modulo 2^32).  Third conjunct: on unpack, a `u` field that
is last in the format claims all remaining bytes of the buffer. -/
theorem pack_u_field_layout (bo : ByteOrder) :
    (∀ fs1 vs1 b1 bs, packMid bo fs1 vs1 = some b1 → (∀ b ∈ bs, b < 256) →
      packFields bo (fs1 ++ [Field.fu]) (vs1 ++ [PackVal.vraw bs]) =
        some (b1 ++ bs)) ∧
    (∀ fs1 vs1 b1 bs fs2 vs2 b2, fs2 ≠ [] →
      packMid bo fs1 vs1 = some b1 → packFields bo fs2 vs2 = some b2 →
      (∀ b ∈ bs, b < 256) →
      packFields bo (fs1 ++ Field.fu :: fs2) (vs1 ++ PackVal.vraw bs :: vs2) =
        some (b1 ++ (orderBytes bo 4 bs.length ++ bs) ++ b2) ∧
      (orderBytes bo 4 bs.length).length = 4 ∧
      natOfBytes bo (orderBytes bo 4 bs.length) = bs.length % 2 ^ 32) ∧
    (∀ buf, unpackFields bo [Field.fu] buf = some ([PackVal.vraw buf], [])) := by
  refine ⟨?_, ?_, ?_⟩
  · intro fs1 vs1 b1 bs h1 hb
    rw [packMid_append_packFields bo fs1 vs1 b1 h1 [Field.fu]
      [PackVal.vraw bs] (by simp)]
    rw [packFields, if_pos hb]
    simp [packFields]
  · intro fs1 vs1 b1 bs fs2 vs2 b2 hne h1 h2 hb
    refine ⟨?_, orderBytes_length bo 4 bs.length, ?_⟩
    · rw [packMid_append_packFields bo fs1 vs1 b1 h1 (Field.fu :: fs2)
        (PackVal.vraw bs :: vs2) (by simp)]
      rw [packFields, if_pos hb]
      have hemp : fs2.isEmpty = false := by
        cases fs2 with
        | nil => exact absurd rfl hne
        | cons a l => rfl
      rw [hemp]
      simp only [Bool.false_eq_true, if_false, h2, Option.map_some]
      simp [List.append_assoc]
    · rw [natOfBytes_orderBytes]
      norm_num
  · intro buf
    rw [unpackFields]
    rfl

/-- Witness for C2: the format `"buh"` (a byte, then `u` mid-format, then a
16-bit scalar) packs the raw bytes `[170, 187]` with a 4-byte big-endian
length prefix, while a trailing `u` alone claims the whole buffer. -/
theorem pack_u_field_layout_witness :
    (packFields ByteOrder.big
        ([Field.fint 1] ++ Field.fu :: [Field.fint 2])
        ([PackVal.vint 5] ++ PackVal.vraw [170, 187] :: [PackVal.vint 9]) =
      some ([5] ++
        (orderBytes ByteOrder.big 4 (List.length [170, 187]) ++ [170, 187]) ++
        orderBytes ByteOrder.big 2 9) ∧
      (orderBytes ByteOrder.big 4 (List.length [170, 187])).length = 4 ∧
      natOfBytes ByteOrder.big
          (orderBytes ByteOrder.big 4 (List.length [170, 187])) =
        List.length [170, 187] % 2 ^ 32) ∧
    unpackFields ByteOrder.big [Field.fu] [170, 187] =
      some ([PackVal.vraw [170, 187]], []) :=
  ⟨(pack_u_field_layout ByteOrder.big).2.1 [Field.fint 1] [PackVal.vint 5]
      [5] [170, 187] [Field.fint 2] [PackVal.vint 9]
      (orderBytes ByteOrder.big 2 9) (by simp) (by rfl) (by rfl)
      (by norm_num),
    (pack_u_field_layout ByteOrder.big).2.2 [170, 187]⟩

theorem packFields_length (bo : ByteOrder) :
    ∀ fs vs out, declSizeOk fs vs → packFields bo fs vs = some out →
      out.length = sizeOfFields fs := by
  intro fs
  induction fs with
  | nil =>
    intro vs out _ hp
    cases vs with
    | nil =>
      obtain rfl : ([] : List Nat) = out := by injection hp
      rfl
    | cons v vs => simp [packFields] at hp
  | cons f fs ih =>
    intro vs out hd hp
    cases f with
    | fpad =>
      rw [packFields] at hp
      obtain ⟨r, hr, rfl⟩ := Option.map_eq_some'.mp hp
      have hr2 := ih vs r hd hr
      simp [sizeOfFields, fieldSize] at hr2 ⊢
      omega
    | fint w =>
      cases vs with
      | nil => simp [packFields] at hp
      | cons v vs =>
        cases v with
        | vint n =>
          rw [packFields] at hp
          obtain ⟨r, hr, rfl⟩ := Option.map_eq_some'.mp hp
          simp [orderBytes_length, sizeOfFields, fieldSize] at ih ⊢
          exact ih vs r hd hr
        | vstr bs => simp [packFields] at hp
        | vraw bs => simp [packFields] at hp
    | fstr k =>
      cases vs with
      | nil => simp [packFields] at hp
      | cons v vs =>
        cases v with
        | vstr bs =>
          rw [packFields] at hp
          by_cases hc : bs.length = k ∧ ∀ b ∈ bs, b < 256
          · rw [if_pos hc] at hp
            obtain ⟨r, hr, rfl⟩ := Option.map_eq_some'.mp hp
            simp [sizeOfFields, fieldSize, hc.1] at ih ⊢
            exact ih vs r hd hr
          · rw [if_neg hc] at hp
            exact absurd hp (by simp)
        | vint n => simp [packFields] at hp
        | vraw bs => simp [packFields] at hp
    | fS =>
      cases vs with
      | nil => simp [packFields] at hp
      | cons v vs =>
        cases v with
        | vstr bs => exact absurd hd (by simp [declSizeOk])
        | vint n => simp [packFields] at hp
        | vraw bs => simp [packFields] at hp
    | fu =>
      cases vs with
      | nil => simp [packFields] at hp
      | cons v vs =>
        cases v with
        | vraw bs =>
          obtain ⟨⟨hfs, hbs⟩, hd2⟩ := hd
          subst hfs
          subst hbs
          rw [packFields] at hp
          rw [if_pos (by simp : ∀ b ∈ ([] : List Nat), b < 256)] at hp
          simp only [List.isEmpty_nil, if_true] at hp
          obtain ⟨r, hr, rfl⟩ := Option.map_eq_some'.mp hp
          simp [sizeOfFields, fieldSize] at ih ⊢
          exact ih vs r hd2 hr
        | vint n => simp [packFields] at hp
        | vstr bs => simp [packFields] at hp

/-- C6: whenever the format contains no `u`/`S` field whose declared size
differs from the size of the data actually encoded for it, the length of
the packed buffer equals the declared size of the format — the sum of each
field's encoded width as given by the format's repeat counts, independent
of runtime data length. -/
theorem struct_pack_length_eq_struct_size (native : ByteOrder)
    (fmt : List Char) (fs : List Field) (vs : List PackVal)
    (buf : List Nat) (hf : formatFields fmt = some fs)
    (hd : declSizeOk fs vs) (hp : struct_pack native fmt vs = some buf) :
    struct_size fmt = some buf.length := by
  rw [struct_size, hf]
  rw [struct_pack, hf] at hp
  rw [Option.some_bind] at hp
  rw [packFields_length (formatOrder native fmt) fs vs buf hd hp]
  rfl

/-- Witness for C6: the all-fixed-width format `"2i3sx"` packs to exactly
its declared size of twelve bytes. -/
theorem struct_pack_length_eq_struct_size_witness :
    struct_size ("2i3sx".toList) =
      some (List.length
        (orderBytes ByteOrder.big 4 1 ++
          (orderBytes ByteOrder.big 4 2 ++ ([97, 98, 99] ++ [0])))) :=
  struct_pack_length_eq_struct_size ByteOrder.big ("2i3sx".toList)
    [Field.fint 4, Field.fint 4, Field.fstr 3, Field.fpad]
    [PackVal.vint 1, PackVal.vint 2, PackVal.vstr [97, 98, 99]]
    (orderBytes ByteOrder.big 4 1 ++
      (orderBytes ByteOrder.big 4 2 ++ ([97, 98, 99] ++ [0])))
    (by rfl) (by simp [declSizeOk]) (by rfl)

/-! ### Sorted-list facts used by search_near -/

theorem pairwise_le_getLast {K : Type} [LinearOrder K] :
    ∀ (l : List K), l.Pairwise (· < ·) → ∀ m, l.getLast? = some m →
      ∀ y ∈ l, y ≤ m := by
  intro l
  induction l with
  | nil => intro _ m hm; simp at hm
  | cons a t ih =>
    intro hp m hm y hy
    cases t with
    | nil =>
      simp at hm
      subst hm
      simp at hy
      subst hy
      exact le_refl y
    | cons b t2 =>
      rw [List.getLast?_cons_cons] at hm
      have hmem : m ∈ b :: t2 := List.mem_of_mem_getLast? hm
      obtain ⟨ha, hp2⟩ := List.pairwise_cons.mp hp
      cases hy with
      | head => exact le_of_lt (ha m hmem)
      | tail _ hy2 => exact ih hp2 m hm y hy2

theorem pairwise_head_le {K : Type} [LinearOrder K] (l : List K)
    (hp : l.Pairwise (· < ·)) (m : K) (hm : l.head? = some m) :
    ∀ y ∈ l, m ≤ y := by
  cases l with
  | nil => simp at hm
  | cons a t =>
    simp at hm
    subst hm
    intro y hy
    obtain ⟨ha, _⟩ := List.pairwise_cons.mp hp
    cases hy with
    | head => exact le_rfl
    | tail _ hy2 => exact le_of_lt (ha y hy2)

/-- Characterization of `searchNearKey` over a strictly sorted table: the
tri-state result names an exact match, the greatest strictly smaller key,
or the least strictly larger key. -/
theorem searchNearKey_spec {K : Type} [LinearOrder K] (keys : List K)
    (hs : keys.Pairwise (· < ·)) (k : K) (e : Int) (pos : K)
    (h : searchNearKey keys k = some (e, pos)) :
    (e = 0 → pos = k ∧ k ∈ keys) ∧
    (e = -1 → pos ∈ keys ∧ pos < k ∧ ∀ y ∈ keys, y < k → y ≤ pos) ∧
    (e = 1 → pos ∈ keys ∧ k < pos ∧ ∀ y ∈ keys, k < y → pos ≤ y) := by
  rw [searchNearKey] at h
  by_cases hmem : k ∈ keys
  · rw [if_pos hmem] at h
    simp only [Option.some.injEq, Prod.mk.injEq] at h
    obtain ⟨he, hpos⟩ := h
    subst he
    subst hpos
    exact ⟨fun _ => ⟨rfl, hmem⟩, fun h0 => absurd h0 (by decide),
      fun h0 => absurd h0 (by decide)⟩
  · rw [if_neg hmem] at h
    cases hl : (keys.filter (fun y => decide (y < k))).getLast? with
    | some m =>
      rw [hl] at h
      simp only [Option.some.injEq, Prod.mk.injEq] at h
      obtain ⟨he, hpos⟩ := h
      subst he
      subst hpos
      have hmf := List.mem_of_mem_getLast? hl
      have hm1 : m ∈ keys := (List.mem_filter.mp hmf).1
      have hm2 : m < k := of_decide_eq_true (List.mem_filter.mp hmf).2
      refine ⟨fun h0 => absurd h0 (by decide), fun _ => ⟨hm1, hm2, ?_⟩,
        fun h0 => absurd h0 (by decide)⟩
      intro y hy hyk
      exact pairwise_le_getLast _
        (hs.filter (fun y => decide (y < k))) m hl y
        (List.mem_filter.mpr ⟨hy, decide_eq_true hyk⟩)
    | none =>
      rw [hl] at h
      cases hh : (keys.filter (fun y => decide (k < y))).head? with
      | some m =>
        rw [hh] at h
        simp only [Option.some.injEq, Prod.mk.injEq] at h
        obtain ⟨he, hpos⟩ := h
        subst he
        subst hpos
        have hmf := List.mem_of_mem_head? hh
        have hm1 : m ∈ keys := (List.mem_filter.mp hmf).1
        have hm2 : k < m := of_decide_eq_true (List.mem_filter.mp hmf).2
        refine ⟨fun h0 => absurd h0 (by decide),
          fun h0 => absurd h0 (by decide), fun _ => ⟨hm1, hm2, ?_⟩⟩
        intro y hy hky
        exact pairwise_head_le _
          (hs.filter (fun y => decide (k < y))) m hh y
          (List.mem_filter.mpr ⟨hy, decide_eq_true hky⟩)
      | none =>
        rw [hh] at h
        exact absurd h (by simp)

/-- C5: on a collated table (keys in strictly ascending collation order),
`search_near` with a staged search key returns the tri-state matching the
collation order: 0 positioned on an exact match, -1 positioned on the
greatest key strictly less than the search key, +1 positioned on the least
key strictly greater than the search key. -/
theorem search_near_tristate (keys : List (List Nat))
    (hs : keys.Pairwise (· < ·)) (c : Cursor) (k : List Nat)
    (hopen : c.closed = false) (hk : c.stagedKey = Staged.ok k)
    (e : Int) (c2 : Cursor)
    (hres : search_near keys c = (c2, Except.ok e)) :
    ∃ pos, c2.position = some pos ∧
      (e = 0 → pos = k ∧ k ∈ keys) ∧
      (e = -1 → pos ∈ keys ∧ pos < k ∧ ∀ y ∈ keys, y < k → y ≤ pos) ∧
      (e = 1 → pos ∈ keys ∧ k < pos ∧ ∀ y ∈ keys, k < y → pos ≤ y) := by
  rw [search_near, hopen, hk] at hres
  simp only [Bool.false_eq_true, if_false] at hres
  cases hsn : searchNearKey keys k with
  | none =>
    rw [hsn] at hres
    simp only [Prod.mk.injEq] at hres
    exact absurd hres.2 (by simp)
  | some p =>
    obtain ⟨e0, pos⟩ := p
    rw [hsn] at hres
    simp only [Prod.mk.injEq, Except.ok.injEq] at hres
    obtain ⟨hc2, he⟩ := hres
    subst he
    subst hc2
    refine ⟨pos, rfl, ?_⟩
    have hspec := searchNearKey_spec keys hs k e0 pos hsn
    exact ⟨hspec.1, hspec.2.1, hspec.2.2⟩

/-- Witness for C5: searching near the key `[2]` in the collated table
`[[1], [3]]` returns the tri-state -1, positioned on `[1]`, the greatest
key strictly below the search key. -/
theorem search_near_tristate_witness :
    ∃ pos, (Cursor.mk ("u".toList) ("u".toList) false (some [1])
        Staged.empty Staged.empty false
        Isolation.serializable).position = some pos ∧
      ((-1 : Int) = 0 → pos = [2] ∧ [2] ∈ [[1], [3]]) ∧
      ((-1 : Int) = -1 → pos ∈ [[1], [3]] ∧ pos < [2] ∧
        ∀ y ∈ [[1], [3]], y < [2] → y ≤ pos) ∧
      ((-1 : Int) = 1 → pos ∈ [[1], [3]] ∧ [2] < pos ∧
        ∀ y ∈ [[1], [3]], [2] < y → pos ≤ y) :=
  search_near_tristate [[1], [3]] (by decide)
    (Cursor.mk ("u".toList) ("u".toList) false none (Staged.ok [2])
      Staged.empty false Isolation.serializable) [2] rfl rfl (-1)
    (Cursor.mk ("u".toList) ("u".toList) false (some [1]) Staged.empty
      Staged.empty false Isolation.serializable) (by rfl)

/-! ### Deferred errors of set_key and set_value -/

/-- C3: `set_key`/`set_value` never fail — their return type is the
updated cursor alone, with no failure outcome.  A value tuple the codec
accepts is staged as its encoding; a malformed one records a pending
`FormatError` in the cursor, and the next operation consuming the staged
key (`search`, `get_key`) or value (`get_value`) is the call that surfaces
that error and leaves the cursor unpositioned. -/
theorem set_key_set_value_defer_errors (native : ByteOrder)
    (keys : List (List Nat)) (c : Cursor) (vs : List PackVal)
    (hopen : c.closed = false) :
    (∀ buf, struct_pack native c.keyFormat vs = some buf →
      set_key native c vs = { c with stagedKey := Staged.ok buf }) ∧
    (∀ buf, struct_pack native c.valueFormat vs = some buf →
      set_value native c vs = { c with stagedValue := Staged.ok buf }) ∧
    (struct_pack native c.keyFormat vs = none →
      (set_key native c vs).stagedKey = Staged.err WTErr.FormatError ∧
      (search keys (set_key native c vs)).2 = some WTErr.FormatError ∧
      (search keys (set_key native c vs)).1.position = none ∧
      (get_key (set_key native c vs)).2 = some WTErr.FormatError ∧
      (get_key (set_key native c vs)).1.position = none) ∧
    (struct_pack native c.valueFormat vs = none →
      (set_value native c vs).stagedValue = Staged.err WTErr.FormatError ∧
      (get_value (set_value native c vs)).2 = some WTErr.FormatError ∧
      (get_value (set_value native c vs)).1.position = none) := by
  refine ⟨?_, ?_, ?_, ?_⟩
  · intro buf hb
    simp [set_key, hb]
  · intro buf hb
    simp [set_value, hb]
  · intro hb
    simp [set_key, hb, search, get_key, hopen]
  · intro hb
    simp [set_value, hb, get_value, hopen]

/-- Witness for C3: a cursor with key and value format `"i"` fed the
mismatched tuple `("x")` stages a deferred `FormatError` that `search`,
`get_key` and `get_value` surface. -/
theorem set_key_set_value_defer_errors_witness :
    (∀ buf, struct_pack ByteOrder.big
        (Cursor.mk ("i".toList) ("i".toList) false none Staged.empty
          Staged.empty false Isolation.serializable).keyFormat
        [PackVal.vstr [120]] = some buf →
      set_key ByteOrder.big
          (Cursor.mk ("i".toList) ("i".toList) false none Staged.empty
            Staged.empty false Isolation.serializable)
          [PackVal.vstr [120]] =
        { Cursor.mk ("i".toList) ("i".toList) false none Staged.empty
            Staged.empty false Isolation.serializable with
          stagedKey := Staged.ok buf }) ∧
    (∀ buf, struct_pack ByteOrder.big
        (Cursor.mk ("i".toList) ("i".toList) false none Staged.empty
          Staged.empty false Isolation.serializable).valueFormat
        [PackVal.vstr [120]] = some buf →
      set_value ByteOrder.big
          (Cursor.mk ("i".toList) ("i".toList) false none Staged.empty
            Staged.empty false Isolation.serializable)
          [PackVal.vstr [120]] =
        { Cursor.mk ("i".toList) ("i".toList) false none Staged.empty
            Staged.empty false Isolation.serializable with
          stagedValue := Staged.ok buf }) ∧
    (struct_pack ByteOrder.big
        (Cursor.mk ("i".toList) ("i".toList) false none Staged.empty
          Staged.empty false Isolation.serializable).keyFormat
        [PackVal.vstr [120]] = none →
      (set_key ByteOrder.big
          (Cursor.mk ("i".toList) ("i".toList) false none Staged.empty
            Staged.empty false Isolation.serializable)
          [PackVal.vstr [120]]).stagedKey = Staged.err WTErr.FormatError ∧
      (search [] (set_key ByteOrder.big
          (Cursor.mk ("i".toList) ("i".toList) false none Staged.empty
            Staged.empty false Isolation.serializable)
          [PackVal.vstr [120]])).2 = some WTErr.FormatError ∧
      (search [] (set_key ByteOrder.big
          (Cursor.mk ("i".toList) ("i".toList) false none Staged.empty
            Staged.empty false Isolation.serializable)
          [PackVal.vstr [120]])).1.position = none ∧
      (get_key (set_key ByteOrder.big
          (Cursor.mk ("i".toList) ("i".toList) false none Staged.empty
            Staged.empty false Isolation.serializable)
          [PackVal.vstr [120]])).2 = some WTErr.FormatError ∧
      (get_key (set_key ByteOrder.big
          (Cursor.mk ("i".toList) ("i".toList) false none Staged.empty
            Staged.empty false Isolation.serializable)
          [PackVal.vstr [120]])).1.position = none) ∧
    (struct_pack ByteOrder.big
        (Cursor.mk ("i".toList) ("i".toList) false none Staged.empty
          Staged.empty false Isolation.serializable).valueFormat
        [PackVal.vstr [120]] = none →
      (set_value ByteOrder.big
          (Cursor.mk ("i".toList) ("i".toList) false none Staged.empty
            Staged.empty false Isolation.serializable)
          [PackVal.vstr [120]]).stagedValue =
        Staged.err WTErr.FormatError ∧
      (get_value (set_value ByteOrder.big
          (Cursor.mk ("i".toList) ("i".toList) false none Staged.empty
            Staged.empty false Isolation.serializable)
          [PackVal.vstr [120]])).2 = some WTErr.FormatError ∧
      (get_value (set_value ByteOrder.big
          (Cursor.mk ("i".toList) ("i".toList) false none Staged.empty
            Staged.empty false Isolation.serializable)
          [PackVal.vstr [120]])).1.position = none) :=
  set_key_set_value_defer_errors ByteOrder.big []
    (Cursor.mk ("i".toList) ("i".toList) false none Staged.empty
      Staged.empty false Isolation.serializable)
    [PackVal.vstr [120]] rfl

/-! ### Transaction-bound cursors -/

/-- C4: committing (or rolling back) an active transaction closes every
cursor opened on the session since the matching `begin_transaction` (those
carrying the `openedInTxn` flag): the cursor's post-commit version is
closed, and every subsequent operation on it fails with `InvalidState`. -/
theorem commit_rollback_close_txn_cursors (s : Session) (t : TxnInfo)
    (h : s.txn = TxnState.active t) (c : Cursor) (hc : c ∈ s.cursors)
    (ho : c.openedInTxn = true) :
    closeTxnCursor c ∈ (commit_transaction s).1.cursors ∧
    closeTxnCursor c ∈ (rollback_transaction s).1.cursors ∧
    (closeTxnCursor c).closed = true ∧
    (∀ keys, (search keys (closeTxnCursor c)).2 =
      some WTErr.InvalidState) ∧
    (∀ keys, (search_near keys (closeTxnCursor c)).2 =
      Except.error WTErr.InvalidState) ∧
    (get_key (closeTxnCursor c)).2 = some WTErr.InvalidState ∧
    (get_value (closeTxnCursor c)).2 = some WTErr.InvalidState ∧
    (cursor_close (closeTxnCursor c)).2 = some WTErr.InvalidState := by
  have hclosed : (closeTxnCursor c).closed = true := by
    simp [closeTxnCursor, ho]
  refine ⟨?_, ?_, hclosed, ?_, ?_, ?_, ?_, ?_⟩
  · rw [commit_transaction]
    cases hs : s.txn with
    | inactive => rw [hs] at h; exact absurd h (by simp)
    | active t2 => exact List.mem_map_of_mem closeTxnCursor hc
  · rw [rollback_transaction]
    cases hs : s.txn with
    | inactive => rw [hs] at h; exact absurd h (by simp)
    | active t2 => exact List.mem_map_of_mem closeTxnCursor hc
  · intro keys; simp [search, hclosed]
  · intro keys; simp [search_near, hclosed]
  · simp [get_key, hclosed]
  · simp [get_value, hclosed]
  · simp [cursor_close, hclosed]

/-- Witness for C4 on a one-cursor session inside an active serializable
transaction. -/
theorem commit_rollback_close_txn_cursors_witness :
    closeTxnCursor (Cursor.mk ("u".toList) ("u".toList) false none
        Staged.empty Staged.empty true Isolation.serializable) ∈
      (commit_transaction (Session.mk
        (TxnState.active ⟨Isolation.serializable, 0⟩)
        [Cursor.mk ("u".toList) ("u".toList) false none Staged.empty
          Staged.empty true Isolation.serializable])).1.cursors ∧
    closeTxnCursor (Cursor.mk ("u".toList) ("u".toList) false none
        Staged.empty Staged.empty true Isolation.serializable) ∈
      (rollback_transaction (Session.mk
        (TxnState.active ⟨Isolation.serializable, 0⟩)
        [Cursor.mk ("u".toList) ("u".toList) false none Staged.empty
          Staged.empty true Isolation.serializable])).1.cursors ∧
    (closeTxnCursor (Cursor.mk ("u".toList) ("u".toList) false none
        Staged.empty Staged.empty true Isolation.serializable)).closed =
      true ∧
    (∀ keys, (search keys (closeTxnCursor (Cursor.mk ("u".toList)
        ("u".toList) false none Staged.empty Staged.empty true
        Isolation.serializable))).2 = some WTErr.InvalidState) ∧
    (∀ keys, (search_near keys (closeTxnCursor (Cursor.mk ("u".toList)
        ("u".toList) false none Staged.empty Staged.empty true
        Isolation.serializable))).2 =
      Except.error WTErr.InvalidState) ∧
    (get_key (closeTxnCursor (Cursor.mk ("u".toList) ("u".toList) false
        none Staged.empty Staged.empty true
        Isolation.serializable))).2 = some WTErr.InvalidState ∧
    (get_value (closeTxnCursor (Cursor.mk ("u".toList) ("u".toList) false
        none Staged.empty Staged.empty true
        Isolation.serializable))).2 = some WTErr.InvalidState ∧
    (cursor_close (closeTxnCursor (Cursor.mk ("u".toList) ("u".toList)
        false none Staged.empty Staged.empty true
        Isolation.serializable))).2 = some WTErr.InvalidState :=
  commit_rollback_close_txn_cursors
    (Session.mk (TxnState.active ⟨Isolation.serializable, 0⟩)
      [Cursor.mk ("u".toList) ("u".toList) false none Staged.empty
        Staged.empty true Isolation.serializable])
    ⟨Isolation.serializable, 0⟩ rfl
    (Cursor.mk ("u".toList) ("u".toList) false none Staged.empty
      Staged.empty true Isolation.serializable)
    (by simp) rfl

/-! ### Transaction state transitions -/

/-- C7: `begin_transaction` on an already-Active session is a no-op;
`commit_transaction` and `rollback_transaction` on an Inactive session are
no-ops; a completed commit or rollback transitions the session's
transaction state back to Inactive. -/
theorem transaction_state_machine (s : Session) :
    (∀ t iso prio, s.txn = TxnState.active t →
      begin_transaction s iso prio = s) ∧
    (s.txn = TxnState.inactive →
      commit_transaction s = (s, none) ∧
      rollback_transaction s = (s, none)) ∧
    (∀ t, s.txn = TxnState.active t →
      (commit_transaction s).1.txn = TxnState.inactive ∧
      (commit_transaction s).2 = none ∧
      (rollback_transaction s).1.txn = TxnState.inactive ∧
      (rollback_transaction s).2 = none) := by
  obtain ⟨txn, cursors⟩ := s
  cases txn with
  | inactive =>
    refine ⟨?_, ?_, ?_⟩
    · intro t iso prio ht; simp at ht
    · intro _
      exact ⟨rfl, rfl⟩
    · intro t ht; simp at ht
  | active t0 =>
    refine ⟨?_, ?_, ?_⟩
    · intro t iso prio _
      rfl
    · intro ht; simp at ht
    · intro t _
      exact ⟨rfl, rfl, rfl, rfl⟩

/-- Witness for C7 on concrete active and inactive sessions. -/
theorem transaction_state_machine_witness :
    ((Session.mk (TxnState.active ⟨Isolation.snapshot, 5⟩) []).txn =
        TxnState.inactive →
      commit_transaction
          (Session.mk (TxnState.active ⟨Isolation.snapshot, 5⟩) []) =
        (Session.mk (TxnState.active ⟨Isolation.snapshot, 5⟩) [], none) ∧
      rollback_transaction
          (Session.mk (TxnState.active ⟨Isolation.snapshot, 5⟩) []) =
        (Session.mk (TxnState.active ⟨Isolation.snapshot, 5⟩) [],
          none)) ∧
    begin_transaction
        (Session.mk (TxnState.active ⟨Isolation.snapshot, 5⟩) [])
        Isolation.serializable 0 =
      Session.mk (TxnState.active ⟨Isolation.snapshot, 5⟩) [] ∧
    (commit_transaction
        (Session.mk (TxnState.active ⟨Isolation.snapshot, 5⟩) [])).1.txn =
      TxnState.inactive ∧
    (rollback_transaction
        (Session.mk (TxnState.active ⟨Isolation.snapshot, 5⟩) [])).1.txn =
      TxnState.inactive :=
  ⟨(transaction_state_machine
      (Session.mk (TxnState.active ⟨Isolation.snapshot, 5⟩) [])).2.1,
    (transaction_state_machine
      (Session.mk (TxnState.active ⟨Isolation.snapshot, 5⟩) [])).1
      ⟨Isolation.snapshot, 5⟩ Isolation.serializable 0 rfl,
    ((transaction_state_machine
      (Session.mk (TxnState.active ⟨Isolation.snapshot, 5⟩) [])).2.2
      ⟨Isolation.snapshot, 5⟩ rfl).1,
    ((transaction_state_machine
      (Session.mk (TxnState.active ⟨Isolation.snapshot, 5⟩) [])).2.2
      ⟨Isolation.snapshot, 5⟩ rfl).2.2.1⟩

/-! ### Error-code constants -/

/-- C8: the public error codes are the stable negative constants
`WT_DEADLOCK = -10000`, `WT_NOTFOUND = -10001` and
`WT_UPDATE_CONFLICT = -10002` (the spec's Deadlock, NotFound and Conflict
respectively); all three are negative — outside the platform's
non-negative errno range — and pairwise distinct. -/
theorem error_code_values :
    WT_DEADLOCK = -10000 ∧ WT_NOTFOUND = -10001 ∧
    WT_UPDATE_CONFLICT = -10002 ∧
    WT_DEADLOCK < 0 ∧ WT_NOTFOUND < 0 ∧ WT_UPDATE_CONFLICT < 0 ∧
    WT_DEADLOCK ≠ WT_NOTFOUND ∧ WT_DEADLOCK ≠ WT_UPDATE_CONFLICT ∧
    WT_NOTFOUND ≠ WT_UPDATE_CONFLICT := by
  refine ⟨rfl, rfl, rfl, ?_, ?_, ?_, ?_, ?_, ?_⟩ <;>
    simp [WT_DEADLOCK, WT_NOTFOUND, WT_UPDATE_CONFLICT]

/-! ### Size bound of data items -/

/-- C9: every `WT_ITEM` carries its byte count in an unsigned 32-bit
`size` field, so every item is strictly smaller than 2^32 bytes; an item
built from a byte buffer records exactly the buffer's length, and no item
can be constructed from a buffer of 2^32 bytes or more. -/
theorem wt_item_size_bound :
    (∀ it : WT_ITEM, it.size < 2 ^ 32) ∧
    (∀ bs it, itemOfBytes bs = some it →
      it.data = bs ∧ it.size = bs.length ∧ it.size < 2 ^ 32) ∧
    (∀ bs, 2 ^ 32 ≤ bs.length → itemOfBytes bs = none) := by
  refine ⟨fun it => it.size_lt, ?_, ?_⟩
  · intro bs it h
    rw [itemOfBytes] at h
    split at h
    · obtain rfl : WT_ITEM.mk bs bs.length (by assumption) = it := by
        injection h
      refine ⟨rfl, rfl, ?_⟩
      assumption
    · exact absurd h (by simp)
  · intro bs h
    rw [itemOfBytes]
    rw [dif_neg (by omega)]

/-- Witness for C9 at a three-byte item. -/
theorem wt_item_size_bound_witness :
    (WT_ITEM.mk [10, 20, 30] 3 (by norm_num)).data = [10, 20, 30] ∧
    (WT_ITEM.mk [10, 20, 30] 3 (by norm_num)).size =
      List.length [10, 20, 30] ∧
    (WT_ITEM.mk [10, 20, 30] 3 (by norm_num)).size < 2 ^ 32 :=
  wt_item_size_bound.2.1 [10, 20, 30]
    (WT_ITEM.mk [10, 20, 30] 3 (by norm_num))
    (by rw [itemOfBytes, dif_pos (by norm_num)]
        rfl)

/-! ### Cursor isolation option -/

/-- C10: the `isolation` option of `open_cursor` defaults to
read-committed when absent, and a cursor opened while the session has an
active transaction ignores the cursor-level option entirely, always
reading under the enclosing transaction's isolation level. -/
theorem open_cursor_isolation_rules (s : Session) (kf vf : List Char)
    (cfg : List (String × String)) :
    (lookupCfg cfg "isolation" = none →
      cursorIsolation cfg = Isolation.readCommitted) ∧
    (s.txn = TxnState.inactive →
      (open_cursor s kf vf cfg).2.isolation = cursorIsolation cfg) ∧
    (∀ t, s.txn = TxnState.active t →
      (open_cursor s kf vf cfg).2.isolation = t.isolation ∧
      ∀ cfg2, (open_cursor s kf vf cfg).2.isolation =
        (open_cursor s kf vf cfg2).2.isolation) := by
  refine ⟨?_, ?_, ?_⟩
  · intro h
    simp [cursorIsolation, h]
  · intro h
    simp [open_cursor, h]
  · intro t h
    constructor
    · simp [open_cursor, h]
    · intro cfg2
      simp [open_cursor, h]

/-- Witness for C10: with no configuration the default is read-committed,
and inside a snapshot transaction the cursor reads under snapshot whatever
the option says. -/
theorem open_cursor_isolation_rules_witness :
    (lookupCfg [] "isolation" = none →
      cursorIsolation [] = Isolation.readCommitted) ∧
    ((Session.mk (TxnState.active ⟨Isolation.snapshot, 0⟩) []).txn =
        TxnState.inactive →
      (open_cursor
        (Session.mk (TxnState.active ⟨Isolation.snapshot, 0⟩) [])
        ("i".toList) ("i".toList) []).2.isolation = cursorIsolation []) ∧
    (∀ t, (Session.mk (TxnState.active ⟨Isolation.snapshot, 0⟩) []).txn =
        TxnState.active t →
      (open_cursor
        (Session.mk (TxnState.active ⟨Isolation.snapshot, 0⟩) [])
        ("i".toList) ("i".toList) []).2.isolation = t.isolation ∧
      ∀ cfg2, (open_cursor
          (Session.mk (TxnState.active ⟨Isolation.snapshot, 0⟩) [])
          ("i".toList) ("i".toList) []).2.isolation =
        (open_cursor
          (Session.mk (TxnState.active ⟨Isolation.snapshot, 0⟩) [])
          ("i".toList) ("i".toList) cfg2).2.isolation) :=
  open_cursor_isolation_rules
    (Session.mk (TxnState.active ⟨Isolation.snapshot, 0⟩) [])
    ("i".toList) ("i".toList) []

end WiredTiger
